import Mathlib

/-!
Verification of the local-notebook-V2 RAG pipeline against its specification.

The definitions below are shallow embeddings of the JavaScript source:
strings are modelled as `List Char` where character-level slicing matters
(the chunker) and as `String` elsewhere; JavaScript numbers are modelled as
`Nat`/`Int`/`ℚ`; fallible external calls (extraction, embedding, chunk
insertion, the LLM call) are modelled by environment records supplying their
outcomes.
-/

set_option maxHeartbeats 1000000

namespace NotebookV2

/-! ## Chunker: splitTextIntoChunks (backend/src/services/documentProcessor.js) -/

/-- Whitespace test matching the JavaScript regex class backslash-s, used by
the paragraph separator regex in `text.split(/\n\s*\n/)`. -/
def isWs (c : Char) : Bool :=
  c = ' ' || c = '\t' || c = '\n' || c = '\r' || c = '\x0B' || c = '\x0C' ||
  c = '\u00A0' || c = '\u1680' || ('\u2000' ≤ c && c ≤ '\u200A') ||
  c = '\u2028' || c = '\u2029' || c = '\u202F' || c = '\u205F' ||
  c = '\u3000' || c = '\uFEFF'

/-- Index of the last newline character of a list, if any. -/
def lastNlIdx (run : List Char) : Option Nat :=
  match run.reverse.findIdx? (fun c => c = '\n') with
  | some j => some (run.length - 1 - j)
  | none => none

/-- Given the characters following an initial newline, the number of further
characters consumed by the greedy match of the separator regex
(a maximal whitespace run, backtracked to its last newline), or `none` when
no separator matches here. -/
def trySepLen (l : List Char) : Option Nat :=
  match lastNlIdx (l.takeWhile isWs) with
  | some k => some (k + 1)
  | none => none

/-- The JavaScript `text.split(/\n\s*\n/)`: returns the list of fragments
(paragraphs) together with the list of matched separators, scanning left to
right.  `acc` holds the current fragment reversed. -/
def splitParasAux : List Char → List Char → List (List Char) × List (List Char)
  | [], acc => ([acc.reverse], [])
  | c :: rest, acc =>
    if c = '\n' then
      match trySepLen rest with
      | some k =>
        let pr := splitParasAux (rest.drop k) []
        (acc.reverse :: pr.1, (c :: rest.take k) :: pr.2)
      | none => splitParasAux rest (c :: acc)
    else splitParasAux rest (c :: acc)
termination_by l _ => l.length
decreasing_by
  all_goals simp_wf
  all_goals omega

/-- Paragraph list of `text.split(/\n\s*\n/)`. -/
def splitParas (text : List Char) : List (List Char) :=
  (splitParasAux text []).1

/-- The separators that the split consumed between adjacent paragraphs. -/
def splitParaSeps (text : List Char) : List (List Char) :=
  (splitParasAux text []).2

/-- One unfolding per iteration of the oversized-paragraph while loop
(`chunk = paragraph.substring(i, i + maxChunkSize); i += maxChunkSize - overlap`),
with explicit fuel.  Fuel `p.length` suffices whenever the step is positive. -/
def sliceWindowsAux (p : List Char) (maxCS step : Nat) : Nat → Nat → List (List Char)
  | 0, _ => []
  | fuel + 1, i =>
    if i < p.length then
      ((p.drop i).take maxCS) :: sliceWindowsAux p maxCS step fuel (i + step)
    else []

/-- The slices emitted for a single oversized paragraph.  Faithful to the
source loop whenever `overlap < maxChunkSize`; for `overlap ≥ maxChunkSize`
the JavaScript loop never terminates (see `sliceIter` below). -/
def sliceWindows (p : List Char) (maxCS ov : Nat) : List (List Char) :=
  sliceWindowsAux p maxCS (maxCS - ov) p.length 0

/-- The two-newline join inserted between paragraphs accumulated into one
chunk (`currentChunk += (currentChunk ? '\n\n' : '') + paragraph`). -/
def nl2 : List Char := ['\n', '\n']

/-- One iteration of the for-loop over paragraphs.  The state is
`(chunks, currentChunk)`; `currentChunk.isEmpty` models JavaScript string
falsiness of `currentChunk`. -/
def chunkStep (maxCS ov : Nat) (st : List (List Char) × List Char)
    (p : List Char) : List (List Char) × List Char :=
  if maxCS < p.length then
    ((if st.2.isEmpty then st.1 else st.1 ++ [st.2]) ++ sliceWindows p maxCS ov, [])
  else if maxCS < st.2.length + p.length then
    (st.1 ++ [st.2], p)
  else
    (st.1, st.2 ++ (if st.2.isEmpty then [] else nl2) ++ p)

/-- The chunker `splitTextIntoChunks(text, maxChunkSize, overlap)`.  The
source defaults are `maxChunkSize = 1000`, `overlap = 200`; callers in this
repository always use the defaults. -/
def splitTextIntoChunks (text : List Char) (maxCS ov : Nat) : List (List Char) :=
  if text.length ≤ maxCS then [text]
  else
    let st := (splitParas text).foldl (chunkStep maxCS ov) ([], [])
    if st.2.isEmpty then st.1 else st.1 ++ [st.2]

/-- The loop index `i` of the oversized-paragraph while loop after a given
number of iterations: `i` starts at 0 and each iteration executes
`i += maxChunkSize - overlap` on JavaScript numbers (which may be zero or
negative), so the index lives in `Int`. -/
def sliceIter (maxCS ov : Nat) : Nat → Int
  | 0 => 0
  | n + 1 => sliceIter maxCS ov n + ((maxCS : Int) - (ov : Int))

/-- The guard `i < paragraph.length` of the while loop eventually fails,
i.e. the slicing loop exits for a paragraph of the given length. -/
def slicingLoopExits (maxCS ov len : Nat) : Prop :=
  ∃ n : Nat, (len : Int) ≤ sliceIter maxCS ov n

/-! ## Reconstruction vocabulary for C2 -/

/-- Joins a list of fragments, placing the i-th separator between fragment i
and fragment i+1 (callers maintain one separator fewer than fragments). -/
def interleave : List (List Char) → List (List Char) → List Char
  | [], _ => []
  | p :: ps, s :: ss => p ++ s ++ interleave ps ss
  | p :: _, [] => p

/-- A separator that the chunker itself introduces between two paragraphs
placed in one chunk: either nothing (the paragraphs ended in different
chunks) or the literal two-newline join. -/
def sepOk (s : List Char) : Prop := s = [] ∨ s = nl2

/-- Concatenation of an annotated chunk list, where a chunk flagged `true`
is a continuation slice of an oversized paragraph and loses its
`overlap`-sized duplicated prefix before concatenation. -/
def deOvJoin (ov : Nat) (ann : List (List Char × Bool)) : List Char :=
  (ann.map (fun a => if a.2 then a.1.drop ov else a.1)).flatten

/-- Adjacent-chunk condition justifying the flags: a chunk flagged as a
continuation slice has its removed prefix occurring verbatim as a suffix of
the previous chunk (it is duplicated text, not lost text). -/
def dupRel (ov : Nat) (a b : List Char × Bool) : Prop :=
  b.2 = true → (List.take ov b.1).IsSuffix a.1

/-- Annotates the slices of one oversized paragraph: every slice after the
first is a continuation carrying a duplicated overlap prefix. -/
def annSlices (slices : List (List Char)) : List (List Char × Bool) :=
  match slices with
  | [] => []
  | s :: rest => (s, false) :: rest.map (fun c => (c, true))

/-- Invariant of the paragraph fold of splitTextIntoChunks: after the
paragraphs `done` have been consumed, the emitted chunks (annotated with
continuation flags) followed by the pending buffer spell out exactly the
processed paragraphs joined by separators that are empty or two newlines. -/
def ChunkInv (ov : Nat) (done : List (List Char))
    (st : List (List Char) × List Char) : Prop :=
  ∃ (ann : List (List Char × Bool)) (seps : List (List Char)),
    ann.map Prod.fst = st.1 ∧
    List.Chain' (dupRel ov) ann ∧
    (∀ a ∈ ann.head?, a.2 = false) ∧
    (∀ s ∈ seps, sepOk s) ∧
    (done = [] → ann = [] ∧ seps = [] ∧ st.2 = []) ∧
    (done ≠ [] → seps.length + 1 = done.length) ∧
    deOvJoin ov ann ++ st.2 = interleave done seps

/-- Statement of C2 for one input: the text splits into paragraphs `ps`
joined by whitespace-only separators `seps0`; the chunk list, with the
duplicated overlap prefix of each continuation slice removed
(`deOvJoin`/`dupRel`), spells out the same paragraphs in the same order
joined by the separators `seps1` (each empty or two newlines).  Hence the
chunks reproduce the text up to paragraph-boundary whitespace and preserve
source order. -/
def ReconstructSpec (text : List Char) (maxCS ov : Nat) : Prop :=
  ∃ (ps seps0 seps1 : List (List Char)) (ann : List (List Char × Bool)),
    ann.map Prod.fst = splitTextIntoChunks text maxCS ov ∧
    text = interleave ps seps0 ∧
    seps0.length + 1 = ps.length ∧
    (∀ s ∈ seps0, ∀ c ∈ s, isWs c = true) ∧
    seps1.length + 1 = ps.length ∧
    (∀ s ∈ seps1, sepOk s) ∧
    List.Chain' (dupRel ov) ann ∧
    (∀ a ∈ ann.head?, a.2 = false) ∧
    deOvJoin ov ann = interleave ps seps1

/-! ## Vector store (services/vectorService.js) -/

/-- Metadata attached to each chunk by processDocument when it calls
insertDocument.  source_title and source_type come from database columns
that may be null, which the citation assembly guards with a JavaScript
falsiness check, hence `Option`. -/
structure DocMeta where
  notebook_id : String
  source_id : String
  source_title : Option String
  source_type : Option String
  chunk_index : Nat
  notebook_title : String

/-- A row of the `documents` table. -/
structure StoredDoc where
  id : Nat
  content : String
  metadata : DocMeta
  embedding : List ℚ

/-- A row returned by the searchDocuments query:
`SELECT id, content, metadata, 1 - (embedding <=> $1) as similarity`. -/
structure SearchRow where
  id : Nat
  content : String
  metadata : DocMeta
  similarity : ℚ

/-- The searchDocuments query.  `dist` is the pgvector cosine-distance
operator `<=>`, external to this repository, passed as a parameter; the
query embedding `qEmb` is produced by generateEmbeddings on the query text.
The SQL filters rows on `metadata->>'notebook_id' = $2`, orders by the
distance ascending and truncates to `limit` (default 5 at the call sites).
The sort models the database ordering; every tie-breaking choice satisfies
the properties proved about it. -/
def searchDocuments (dist : List ℚ → List ℚ → ℚ) (store : List StoredDoc)
    (qEmb : List ℚ) (notebookId : String) (lim : Nat) : List SearchRow :=
  (((store.filter (fun d => d.metadata.notebook_id = notebookId)).insertionSort
      (fun a b => dist a.embedding qEmb ≤ dist b.embedding qEmb)).take lim).map
    (fun d => ⟨d.id, d.content, d.metadata, 1 - dist d.embedding qEmb⟩)

/-! ## Citation assembly (routes/chat.js, processResponseWithCitations) -/

structure Segment where
  text : String
  citation_id : Option Nat

structure Citation where
  citation_id : Nat
  source_id : String
  source_title : String
  source_type : String
  chunk_index : Nat
  chunk_lines_from : Nat
  chunk_lines_to : Nat
  excerpt : String

structure ProcessedResponse where
  segments : List Segment
  citations : List Citation

/-- JavaScript `text.split('\n\n')` on the character list: split at each
leftmost non-overlapping occurrence of two consecutive newlines. -/
def splitNl2 : List Char → List Char → List (List Char)
  | [], acc => [acc.reverse]
  | '\n' :: '\n' :: rest, acc => acc.reverse :: splitNl2 rest []
  | c :: rest, acc => splitNl2 rest (c :: acc)

/-- The paragraphs of the answer text:
`text.split('\n\n').filter(p => p.trim())`.  A trimmed string is truthy
exactly when the paragraph contains some non-whitespace character. -/
def answerParagraphs (text : String) : List String :=
  ((splitNl2 text.toList []).map String.mk).filter
    (fun p => !(p.toList.all isWs))

/-- JavaScript `paragraph.split('\n').length`: one more than the number of
newline characters. -/
def lineCount (p : String) : Nat :=
  p.toList.count '\n' + 1

/-- One citation object as pushed by the forEach body.  `chunk_index` is set
to the document row id (`mostRelevantDoc.id`) by the source, title and type
fall back on JavaScript falsiness, and the excerpt is
`content.substring(0, 200) + '...'`. -/
def mkCitation (cid : Nat) (paragraph : String) (d : SearchRow) : Citation :=
  { citation_id := cid,
    source_id := d.metadata.source_id,
    source_title := d.metadata.source_title.getD "Fuente desconocida",
    source_type := d.metadata.source_type.getD "text",
    chunk_index := d.id,
    chunk_lines_from := 1,
    chunk_lines_to := lineCount paragraph,
    excerpt := d.content.take 200 ++ "..." }

/-- The segments array built by the forEach over the paragraphs, carrying
the running index.  `docs.get? (i % docs.length)` is undefined exactly when
`relevantDocs[index % relevantDocs.length]` is undefined in JavaScript
(out of range, including the NaN index when the list is empty). -/
def buildSegments (docs : List SearchRow) : Nat → List String → List Segment
  | _, [] => []
  | i, p :: ps =>
    (match docs.get? (i % docs.length) with
     | some _ => { text := p, citation_id := some (i + 1) }
     | none => { text := p, citation_id := none }) :: buildSegments docs (i + 1) ps

/-- The citations array built by the same forEach: one citation is pushed
per paragraph whenever the round-robin chunk exists. -/
def buildCitations (docs : List SearchRow) : Nat → List String → List Citation
  | _, [] => []
  | i, p :: ps =>
    (match docs.get? (i % docs.length) with
     | some d => [mkCitation (i + 1) p d]
     | none => []) ++ buildCitations docs (i + 1) ps

/-- processResponseWithCitations(text, relevantDocs). -/
def processResponseWithCitations (text : String) (relevantDocs : List SearchRow) :
    ProcessedResponse :=
  { segments := buildSegments relevantDocs 0 (answerParagraphs text),
    citations := buildCitations relevantDocs 0 (answerParagraphs text) }

/-! ## LLM dispatch options (services/llmService.js) -/

/-- JavaScript `x || d` on an optionally-present number: both undefined and
0 (falsy) fall back to the default. -/
def jsNumOr (v : Option ℚ) (d : ℚ) : ℚ :=
  match v with
  | some x => if x = 0 then d else x
  | none => d

/-- The effective value of a request option assembled by
`{opt: options.opt || dflt, ...config.config}`: a key present in the
provider-stored extra configuration always wins (the object spread is
written last), otherwise the caller value unless falsy, otherwise the
built-in default. -/
def effectiveOption (caller stored : Option ℚ) (dflt : ℚ) : ℚ :=
  match stored with
  | some v => v
  | none => jsNumOr caller dflt

/-- Effective temperature of generateOpenAIResponse
(`temperature: options.temperature || 0.7, ...config.config`). -/
def openAITemperature (caller stored : Option ℚ) : ℚ :=
  effectiveOption caller stored (7/10)

/-- Effective max_tokens of generateOpenAIResponse
(`max_tokens: options.max_tokens || 1000, ...config.config`). -/
def openAIMaxTokens (caller stored : Option ℚ) : ℚ :=
  effectiveOption caller stored 1000

/-- Effective temperature of generateOllamaResponse (same shape inside
`options: {...}`). -/
def ollamaTemperature (caller stored : Option ℚ) : ℚ :=
  effectiveOption caller stored (7/10)

/-- Effective num_predict of generateOllamaResponse
(`num_predict: options.max_tokens || 1000, ...config.config`). -/
def ollamaNumPredict (caller stored : Option ℚ) : ℚ :=
  effectiveOption caller stored 1000

/-! ## Ingestion orchestrator (processDocument) -/

inductive PStatus
  | completed
  | failed
deriving DecidableEq

/-- Outcomes of the external calls made during one processDocument run:
`extracted` is the text produced by the extraction step (`none` models the
extractor throwing), and `insertOk i` is whether the i-th insertDocument
call succeeds.  generateSummary cannot throw (it catches its own errors and
returns a placeholder string), so it does not appear. -/
structure IngestEnv where
  extracted : Option (List Char)
  insertOk : Nat → Bool

/-- The sequence of writes processDocument makes to
sources.processing_status: on an extraction error the catch-all writes
failed; otherwise completed is written before the chunk-insert loop, and if
any insertDocument call throws, the catch-all then writes failed. -/
def statusWrites (env : IngestEnv) : List PStatus :=
  match env.extracted with
  | none => [PStatus.failed]
  | some t =>
    if (List.range (splitTextIntoChunks t 1000 200).length).all env.insertOk
    then [PStatus.completed]
    else [PStatus.completed, PStatus.failed]

/-! ## Chat turn (routes/chat.js, router.post send/:notebookId) -/

/-- A chat_histories row's message object as stored by the route: it has a
`type` field ('human' or 'ai') and a content, but no `role` field (ai rows
additionally store provider/model, which no claim inspects). -/
structure StoredMsg where
  mtype : String
  content : String

/-- A message handed to generateChatResponse: an object that may or may not
have a `role` property. -/
structure ProviderMsg where
  role : Option String
  content : String

/-- Role normalization of generateOpenAIResponse:
`msg.role === 'user' ? 'user' : 'assistant'` (an absent role is not the
string 'user', hence assistant). -/
def openAIRole (m : ProviderMsg) : String :=
  if m.role = some "user" then "user" else "assistant"

/-- Role normalization of generateAnthropicResponse (same expression). -/
def anthropicRole (m : ProviderMsg) : String :=
  if m.role = some "user" then "user" else "assistant"

/-- Role normalization of generateGeminiResponse:
`msg.role === 'user' ? 'user' : 'model'`. -/
def geminiRole (m : ProviderMsg) : String :=
  if m.role = some "user" then "user" else "model"

/-- Role normalization of generateOllamaResponse (same expression as
OpenAI). -/
def ollamaRole (m : ProviderMsg) : String :=
  if m.role = some "user" then "user" else "assistant"

inductive ChatResult
  | errMessageRequired
  | errNotebookNotFound
  | errNoProcessedSources
  | ok
deriving DecidableEq

/-- Inputs of one POST send/:notebookId request: the body message, whether
the notebook belongs to the requesting user, the number of sources of the
notebook with processing_status completed, the chat_histories rows of the
session in id order (ids are serial, so insertion order), the rows returned
by searchDocuments, and the text the LLM returns. -/
structure ChatReqEnv where
  message : String
  notebookOwned : Bool
  completedSources : Nat
  db : List StoredMsg
  relevantDocs : List SearchRow
  llmText : String

/-- How a stored history row enters the message list sent to the LLM: the
row's message object is passed through unchanged, and it has no `role`
property. -/
def historyToProvider (r : StoredMsg) : ProviderMsg :=
  { role := none, content := r.content }

/-- The recent-history query
`SELECT message ... ORDER BY id DESC LIMIT 10` followed by `.reverse()`:
the ten newest rows in chronological order. -/
def historyWindow (db : List StoredMsg) : List StoredMsg :=
  (db.reverse.take 10).reverse

/-- The fixed prefix of the system message (the prompt text before the
interpolated context). -/
def systemPromptText : String :=
  "Eres un asistente de investigacion util y preciso. Responde basandote UNICAMENTE en el contexto.\n\nContexto:\n"

/-- The system message built from the retrieved documents
(`relevantDocs.map(doc => doc.content).join('\n\n')` interpolated into the
prompt). -/
def systemMessage (docs : List SearchRow) : ProviderMsg :=
  { role := some "system",
    content := systemPromptText ++ String.intercalate "\n\n" (docs.map (fun d => d.content)) }

/-- Stands in for JSON.stringify of the processed response; no claim
inspects this value. -/
def encodeProcessed (resp : ProcessedResponse) : String :=
  String.intercalate "\n" (resp.segments.map (fun s => s.text))

/-- Result of one request: the HTTP outcome, the chat_histories rows the
handler inserted, and the message list passed to generateChatResponse. -/
structure ChatOutcome where
  result : ChatResult
  inserted : List StoredMsg
  sent : List ProviderMsg

/-- The send/:notebookId handler.  Guard order as in the source: missing
message, then notebook ownership, then the completed-sources precondition;
only then is the user message inserted, the retrieval and history queries
run, the LLM called and the AI message inserted. -/
def sendMessageHandler (env : ChatReqEnv) : ChatOutcome :=
  if env.message = "" then
    { result := ChatResult.errMessageRequired, inserted := [], sent := [] }
  else if env.notebookOwned then
    if env.completedSources = 0 then
      { result := ChatResult.errNoProcessedSources, inserted := [], sent := [] }
    else
      let userRow : StoredMsg := { mtype := "human", content := env.message }
      let db1 := env.db ++ [userRow]
      let processed := processResponseWithCitations env.llmText env.relevantDocs
      let aiRow : StoredMsg := { mtype := "ai", content := encodeProcessed processed }
      { result := ChatResult.ok,
        inserted := [userRow, aiRow],
        sent := systemMessage env.relevantDocs ::
          (historyWindow db1).map historyToProvider ++
          [{ role := some "user", content := env.message }] }
  else
    { result := ChatResult.errNotebookNotFound, inserted := [], sent := [] }

/-- Closed form of the loop index. -/
theorem sliceIter_eq (maxCS ov : Nat) (n : Nat) :
    sliceIter maxCS ov n = (n : Int) * ((maxCS : Int) - (ov : Int)) := by
  induction n with
  | zero => simp [sliceIter]
  | succ n ih => simp [sliceIter, ih]; ring

/-- C6 counterexample: the claim says an invalid configuration
(overlap ≥ maxChunkSize) is rejected with an explicit configuration error
rather than looping forever.  The code contains no such check: with
maxChunkSize = overlap = 10 and an oversized paragraph of length 11 the
while-loop guard `i < paragraph.length` still holds after every number of
iterations, so the loop never exits (and a fortiori no error is raised). -/
theorem sliceLoop_no_reject_counterexample : ¬ slicingLoopExits 10 10 11 := by
  rintro ⟨n, hn⟩
  rw [sliceIter_eq] at hn
  norm_num at hn

/-- C6 amended: splitTextIntoChunks performs no validation of its
configuration.  For overlap < maxChunkSize the sliding-window loop always
exits; for overlap ≥ maxChunkSize it never exits on a non-empty oversized
paragraph (instead of failing with an explicit configuration error). -/
theorem sliceLoop_exit_iff (maxCS ov len : Nat) :
    (ov < maxCS → slicingLoopExits maxCS ov len) ∧
    (maxCS ≤ ov → 1 ≤ len → ¬ slicingLoopExits maxCS ov len) := by
  constructor
  · intro h
    refine ⟨len, ?_⟩
    rw [sliceIter_eq]
    have h1 : (1 : Int) ≤ (maxCS : Int) - (ov : Int) := by omega
    have h2 : (0 : Int) ≤ (len : Int) := by positivity
    nlinarith
  · intro h hlen
    rintro ⟨n, hn⟩
    rw [sliceIter_eq] at hn
    have h1 : (maxCS : Int) - (ov : Int) ≤ 0 := by omega
    have h2 : (0 : Int) ≤ (n : Int) := by positivity
    nlinarith

/-- Witness for C6: a valid configuration (overlap 8 < maxChunkSize 10)
exits on a length-11 paragraph; the invalid configuration 10/10 does not. -/
theorem sliceLoop_exit_iff_witness :
    slicingLoopExits 10 8 11 ∧ ¬ slicingLoopExits 10 10 11 :=
  ⟨(sliceLoop_exit_iff 10 8 11).1 (by decide),
   (sliceLoop_exit_iff 10 10 11).2 (by decide) (by decide)⟩

/-- C8: a text no longer than maxChunkSize (including the empty text) is
returned as the unique chunk, equal to the input. -/
theorem splitTextIntoChunks_short (text : List Char) (maxCS ov : Nat)
    (h : text.length ≤ maxCS) : splitTextIntoChunks text maxCS ov = [text] := by
  simp [splitTextIntoChunks, h]

/-- Witness for C8 at the empty text with the source defaults. -/
theorem splitTextIntoChunks_short_witness :
    ([] : List Char).length ≤ 1000 ∧ splitTextIntoChunks [] 1000 200 = [[]] :=
  ⟨by decide, splitTextIntoChunks_short [] 1000 200 (by decide)⟩

/-! ## Helper lemmas for the C2 reconstruction theorem -/

theorem interleave_cons₂ (p : List Char) (ps : List (List Char)) (s : List Char)
    (ss : List (List Char)) :
    interleave (p :: ps) (s :: ss) = p ++ s ++ interleave ps ss := rfl

theorem interleave_one (p : List Char) : interleave [p] [] = p := rfl

theorem interleave_snoc (ps seps : List (List Char)) (p s : List Char)
    (h : seps.length + 1 = ps.length) :
    interleave (ps ++ [p]) (seps ++ [s]) = interleave ps seps ++ s ++ p := by
  induction ps generalizing seps with
  | nil => simp at h
  | cons q qs ih =>
    cases seps with
    | nil =>
      have hq : qs = [] := by
        simp only [List.length_nil, List.length_cons] at h
        exact List.length_eq_zero.mp (by omega)
      subst hq
      simp [interleave_cons₂, interleave_one]
    | cons t ts =>
      have h' : ts.length + 1 = qs.length := by
        simpa using h
      simp only [List.cons_append, interleave_cons₂]
      rw [ih ts h']
      simp [List.append_assoc]

theorem splitParasAux_cons_sep (rest acc : List Char) (k : Nat)
    (hk : trySepLen rest = some k) :
    splitParasAux ('\n' :: rest) acc =
      (acc.reverse :: (splitParasAux (rest.drop k) []).1,
       ('\n' :: rest.take k) :: (splitParasAux (rest.drop k) []).2) := by
  rw [splitParasAux]
  simp [hk]

theorem splitParasAux_cons_nosep (rest acc : List Char)
    (hk : trySepLen rest = none) :
    splitParasAux ('\n' :: rest) acc = splitParasAux rest ('\n' :: acc) := by
  rw [splitParasAux]
  simp [hk]

theorem splitParasAux_cons_other (c : Char) (rest acc : List Char)
    (hc : ¬ c = '\n') :
    splitParasAux (c :: rest) acc = splitParasAux rest (c :: acc) := by
  rw [splitParasAux]
  simp [hc]

theorem trySepLen_spec (l : List Char) (k : Nat) (h : trySepLen l = some k) :
    1 ≤ k ∧ k ≤ (l.takeWhile isWs).length := by
  unfold trySepLen lastNlIdx at h
  rcases hfi : (l.takeWhile isWs).reverse.findIdx? (fun c => c = '\n') with _ | j
  · rw [hfi] at h; simp at h
  · rw [hfi] at h
    simp only [Option.some.injEq] at h
    have hne : l.takeWhile isWs ≠ [] := by
      intro hnil
      rw [hnil] at hfi
      simp at hfi
    have hlen : 1 ≤ (l.takeWhile isWs).length := by
      have := List.length_pos.mpr hne; omega
    omega

theorem take_all_ws (l : List Char) (k : Nat)
    (hk : k ≤ (l.takeWhile isWs).length) : ∀ c ∈ l.take k, isWs c = true := by
  intro c hc
  obtain ⟨t, ht⟩ := List.takeWhile_prefix (l := l) isWs
  have heq : l.take k = (l.takeWhile isWs).take k := by
    conv_lhs => rw [← ht]
    rw [List.take_append_eq_append_take]
    simp [Nat.sub_eq_zero_of_le hk]
  rw [heq] at hc
  exact List.mem_takeWhile_imp (List.take_subset _ _ hc)

theorem splitParasAux_interleave (l acc : List Char) :
    interleave (splitParasAux l acc).1 (splitParasAux l acc).2
      = acc.reverse ++ l := by
  induction l, acc using splitParasAux.induct with
  | case1 acc => simp [splitParasAux, interleave_one]
  | case2 rest acc k hk ih =>
    rw [splitParasAux_cons_sep rest acc k hk]
    simp only [interleave_cons₂]
    simp only [List.reverse_nil, List.nil_append] at ih
    rw [ih]
    simp [List.append_assoc, List.take_append_drop]
  | case3 rest acc hk ih =>
    rw [splitParasAux_cons_nosep rest acc hk]
    rw [ih]
    simp
  | case4 c rest acc hc ih =>
    rw [splitParasAux_cons_other c rest acc hc]
    rw [ih]
    simp

theorem splitParasAux_seps_ws (l acc : List Char) :
    ∀ s ∈ (splitParasAux l acc).2, ∀ c ∈ s, isWs c = true := by
  induction l, acc using splitParasAux.induct with
  | case1 acc => simp [splitParasAux]
  | case2 rest acc k hk ih =>
    rw [splitParasAux_cons_sep rest acc k hk]
    intro s hs
    simp only [List.mem_cons] at hs
    rcases hs with rfl | hs
    · intro c hc
      rcases List.mem_cons.mp hc with rfl | hc
      · decide
      · exact take_all_ws rest k (trySepLen_spec rest k hk).2 c hc
    · exact ih s hs
  | case3 rest acc hk ih =>
    rw [splitParasAux_cons_nosep rest acc hk]
    exact ih
  | case4 c rest acc hc ih =>
    rw [splitParasAux_cons_other c rest acc hc]
    exact ih

theorem splitParasAux_len (l acc : List Char) :
    (splitParasAux l acc).2.length + 1 = (splitParasAux l acc).1.length := by
  induction l, acc using splitParasAux.induct with
  | case1 acc => simp [splitParasAux]
  | case2 rest acc k hk ih =>
    rw [splitParasAux_cons_sep rest acc k hk]
    simpa using ih
  | case3 rest acc hk ih =>
    rw [splitParasAux_cons_nosep rest acc hk]
    exact ih
  | case4 c rest acc hc ih =>
    rw [splitParasAux_cons_other c rest acc hc]
    exact ih

theorem sliceWindowsAux_succ_pos (p : List Char) (maxCS step fuel i : Nat)
    (h : i < p.length) :
    sliceWindowsAux p maxCS step (fuel + 1) i
      = ((p.drop i).take maxCS) :: sliceWindowsAux p maxCS step fuel (i + step) := by
  simp [sliceWindowsAux, h]

theorem sliceWindowsAux_head (p : List Char) (maxCS step fuel i : Nat) :
    ∀ x ∈ (sliceWindowsAux p maxCS step fuel i).head?,
      x = (p.drop i).take maxCS ∧ i < p.length := by
  cases fuel with
  | zero => simp [sliceWindowsAux]
  | succ fuel =>
    by_cases h : i < p.length
    · simp [sliceWindowsAux, h]
    · simp [sliceWindowsAux, h]

theorem sliceWindowsAux_drop_flatten (p : List Char) (maxCS ov : Nat)
    (hov : ov < maxCS) :
    ∀ (fuel i : Nat), p.length - i ≤ fuel →
    ((sliceWindowsAux p maxCS (maxCS - ov) fuel i).map (List.drop ov)).flatten
      = p.drop (i + ov) := by
  intro fuel
  induction fuel with
  | zero =>
    intro i hi
    simp only [sliceWindowsAux, List.map_nil, List.flatten_nil]
    exact (List.drop_eq_nil_of_le (by omega)).symm
  | succ fuel ih =>
    intro i hi
    by_cases h : i < p.length
    · rw [sliceWindowsAux_succ_pos p maxCS (maxCS - ov) fuel i h]
      simp only [List.map_cons, List.flatten_cons]
      rw [ih (i + (maxCS - ov)) (by omega)]
      have e1 : List.drop ov (List.take maxCS (List.drop i p))
          = List.take (maxCS - ov) (List.drop (i + ov) p) := by
        rw [List.drop_take, List.drop_drop]
      have e2 : List.drop (i + (maxCS - ov) + ov) p
          = List.drop (maxCS - ov) (List.drop (i + ov) p) := by
        rw [List.drop_drop]
        congr 1
        omega
      rw [e1, e2]
      exact List.take_append_drop _ _
    · simp only [sliceWindowsAux, if_neg h, List.map_nil, List.flatten_nil]
      exact (List.drop_eq_nil_of_le (by omega)).symm

theorem sliceWindowsAux_chain (p : List Char) (maxCS ov : Nat)
    (hov : ov < maxCS) :
    ∀ (fuel i : Nat),
    List.Chain' (fun a b => (List.take ov b).IsSuffix a)
      (sliceWindowsAux p maxCS (maxCS - ov) fuel i) := by
  intro fuel
  induction fuel with
  | zero => intro i; simp [sliceWindowsAux]
  | succ fuel ih =>
    intro i
    by_cases h : i < p.length
    · rw [sliceWindowsAux_succ_pos p maxCS (maxCS - ov) fuel i h]
      rw [List.chain'_cons']
      refine ⟨?_, ih (i + (maxCS - ov))⟩
      intro y hy
      obtain ⟨hy1, _⟩ :=
        sliceWindowsAux_head p maxCS (maxCS - ov) fuel (i + (maxCS - ov)) y hy
      subst hy1
      rw [List.take_take]
      have hmin : ov ⊓ maxCS = ov := inf_eq_left.mpr (le_of_lt hov)
      rw [hmin]
      have key : List.take ov (List.drop (i + (maxCS - ov)) p)
          = List.drop (maxCS - ov) (List.take maxCS (List.drop i p)) := by
        rw [List.drop_take, List.drop_drop]
        have h3 : maxCS - (maxCS - ov) = ov := by omega
        rw [h3]
      rw [key]
      exact List.drop_suffix _ _
    · simp [sliceWindowsAux, h]

theorem deOvJoin_append (ov : Nat) (a b : List (List Char × Bool)) :
    deOvJoin ov (a ++ b) = deOvJoin ov a ++ deOvJoin ov b := by
  simp [deOvJoin]

theorem annSlices_map_fst (slices : List (List Char)) :
    (annSlices slices).map Prod.fst = slices := by
  cases slices with
  | nil => rfl
  | cons s rest => simp [annSlices, List.map_map, Function.comp_def]

theorem annSlices_head_flag (slices : List (List Char)) :
    ∀ a ∈ (annSlices slices).head?, a.2 = false := by
  cases slices <;> simp [annSlices]

theorem annSlices_deOv (ov : Nat) (s : List Char) (rest : List (List Char)) :
    deOvJoin ov (annSlices (s :: rest))
      = s ++ (rest.map (List.drop ov)).flatten := by
  simp [annSlices, deOvJoin, List.map_map, Function.comp_def]

theorem chain_map_true (ov : Nat) (r : List Char) (rs : List (List Char))
    (h : List.Chain' (fun a b => (List.take ov b).IsSuffix a) (r :: rs)) :
    List.Chain' (dupRel ov) ((r, true) :: rs.map (fun c => (c, true))) := by
  induction rs generalizing r with
  | nil => simp
  | cons q qs ih =>
    rw [List.chain'_cons] at h
    simp only [List.map_cons]
    rw [List.chain'_cons]
    exact ⟨fun _ => h.1, ih q h.2⟩

theorem annSlices_chain (ov : Nat) (slices : List (List Char))
    (h : List.Chain' (fun a b => (List.take ov b).IsSuffix a) slices) :
    List.Chain' (dupRel ov) (annSlices slices) := by
  cases slices with
  | nil => simp [annSlices]
  | cons s rest =>
    cases rest with
    | nil => simp [annSlices]
    | cons r rs =>
      simp only [annSlices, List.map_cons]
      rw [List.chain'_cons]
      rw [List.chain'_cons] at h
      exact ⟨fun _ => h.1, chain_map_true ov r rs h.2⟩

theorem sliceWindows_deOv (p : List Char) (maxCS ov : Nat) (hov : ov < maxCS)
    (hp : maxCS < p.length) :
    deOvJoin ov (annSlices (sliceWindows p maxCS ov)) = p := by
  rw [sliceWindows]
  have hfuel : p.length = (p.length - 1) + 1 := by omega
  rw [hfuel, sliceWindowsAux_succ_pos p maxCS (maxCS - ov) (p.length - 1) 0
    (by omega)]
  rw [annSlices_deOv]
  rw [sliceWindowsAux_drop_flatten p maxCS ov hov (p.length - 1)
    (0 + (maxCS - ov)) (by omega)]
  simp only [List.drop_zero, Nat.zero_add]
  have h4 : maxCS - ov + ov = maxCS := by omega
  rw [h4]
  exact List.take_append_drop maxCS p

theorem sliceWindows_chain (p : List Char) (maxCS ov : Nat) (hov : ov < maxCS) :
    List.Chain' (dupRel ov) (annSlices (sliceWindows p maxCS ov)) :=
  annSlices_chain ov _ (sliceWindowsAux_chain p maxCS ov hov p.length 0)

theorem chain_append_false_head (ov : Nat) (a b : List (List Char × Bool))
    (ha : List.Chain' (dupRel ov) a) (hb : List.Chain' (dupRel ov) b)
    (hbh : ∀ x ∈ b.head?, x.2 = false) :
    List.Chain' (dupRel ov) (a ++ b) := by
  rw [List.chain'_append]
  refine ⟨ha, hb, ?_⟩
  intro x _ y hy hyt
  rw [hbh y hy] at hyt
  cases hyt

theorem head_flag_append (a b : List (List Char × Bool))
    (ha : ∀ x ∈ a.head?, x.2 = false) (hb : ∀ x ∈ b.head?, x.2 = false) :
    ∀ x ∈ (a ++ b).head?, x.2 = false := by
  cases a with
  | nil => simpa using hb
  | cons y ys => simpa using ha

theorem deOvJoin_buffer (ov : Nat) (x : List Char) :
    deOvJoin ov (if x.isEmpty then [] else [(x, false)]) = x := by
  by_cases h : x.isEmpty
  · rw [if_pos h, List.isEmpty_iff.mp h]
    rfl
  · rw [if_neg h]
    simp [deOvJoin]

theorem buffer_head_flag (x : List Char) :
    ∀ a ∈ (if x.isEmpty then ([] : List (List Char × Bool))
        else [(x, false)]).head?, a.2 = false := by
  by_cases h : x.isEmpty <;> simp [h]

theorem buffer_chain (ov : Nat) (x : List Char) :
    List.Chain' (dupRel ov) (if x.isEmpty then [] else [(x, false)]) := by
  by_cases h : x.isEmpty <;> simp [h]

theorem if_push_append (c : Bool) (l : List (List Char)) (x : List Char) :
    (if c then l else l ++ [x]) = l ++ (if c then [] else [x]) := by
  cases c <;> simp

theorem chunkStep_inv (maxCS ov : Nat) (hov : ov < maxCS)
    (done : List (List Char)) (st : List (List Char) × List Char)
    (p : List Char) (h : ChunkInv ov done st) :
    ChunkInv ov (done ++ [p]) (chunkStep maxCS ov st p) := by
  obtain ⟨ann, seps, hmap, hchain, hhead, hseps, hnil, hlen, heq⟩ := h
  by_cases hd : done = []
  · -- nothing processed yet: the state is completely empty
    obtain ⟨hann, hseps0, hcur⟩ := hnil hd
    subst hd hann hseps0
    have hst1 : st.1 = [] := by rw [← hmap]; rfl
    rw [chunkStep, hcur, hst1]
    by_cases h1 : maxCS < p.length
    · rw [if_pos h1]
      refine ⟨annSlices (sliceWindows p maxCS ov), [], ?_, ?_, ?_, ?_, ?_, ?_, ?_⟩
      · simpa using annSlices_map_fst (sliceWindows p maxCS ov)
      · exact sliceWindows_chain p maxCS ov hov
      · exact annSlices_head_flag _
      · simp
      · simp
      · simp
      · simp only [List.nil_append, List.append_nil]
        rw [sliceWindows_deOv p maxCS ov hov h1, interleave_one]
    · rw [if_neg h1]
      have h2 : ¬ maxCS < ([] : List Char).length + p.length := by
        simpa using h1
      rw [if_neg h2]
      refine ⟨[], [], by simp, by simp, by simp, by simp, by simp, ?_, ?_⟩
      · simp
      · simp [deOvJoin, interleave_one]
  · -- at least one paragraph already processed
    have hlen' : seps.length + 1 = done.length := hlen hd
    rw [chunkStep]
    by_cases h1 : maxCS < p.length
    · rw [if_pos h1]
      refine ⟨ann ++ ((if st.2.isEmpty then [] else [(st.2, false)])
          ++ annSlices (sliceWindows p maxCS ov)), seps ++ [[]],
        ?_, ?_, ?_, ?_, ?_, ?_, ?_⟩
      · simp only [List.map_append, hmap, annSlices_map_fst]
        rw [if_push_append]
        by_cases hb : st.2.isEmpty <;> simp [hb, List.append_assoc]
      · refine chain_append_false_head ov _ _ hchain ?_ ?_
        · refine chain_append_false_head ov _ _ (buffer_chain ov st.2)
            (sliceWindows_chain p maxCS ov hov) (annSlices_head_flag _)
        · exact head_flag_append _ _ (buffer_head_flag st.2)
            (annSlices_head_flag _)
      · exact head_flag_append _ _ hhead
          (head_flag_append _ _ (buffer_head_flag st.2) (annSlices_head_flag _))
      · intro s hs
        rcases List.mem_append.mp hs with hs | hs
        · exact hseps s hs
        · rw [List.mem_singleton.mp hs]; exact Or.inl rfl
      · intro hcontra; simp at hcontra
      · intro _; simp [hlen']
      · rw [deOvJoin_append, deOvJoin_append, deOvJoin_buffer,
          sliceWindows_deOv p maxCS ov hov h1]
        rw [List.append_nil]
        rw [interleave_snoc done seps p [] hlen']
        rw [← heq]
        simp [List.append_assoc]
    · rw [if_neg h1]
      by_cases h2 : maxCS < st.2.length + p.length
      · rw [if_pos h2]
        have hne : ¬ st.2.isEmpty = true := by
          intro hb
          rw [List.isEmpty_iff.mp hb] at h2
          simp at h2
          omega
        refine ⟨ann ++ [(st.2, false)], seps ++ [[]], ?_, ?_, ?_, ?_, ?_, ?_, ?_⟩
        · simp [hmap]
        · exact chain_append_false_head ov _ _ hchain
            (List.chain'_singleton _) (by simp)
        · exact head_flag_append _ _ hhead (by simp)
        · intro s hs
          rcases List.mem_append.mp hs with hs | hs
          · exact hseps s hs
          · rw [List.mem_singleton.mp hs]; exact Or.inl rfl
        · intro hcontra; simp at hcontra
        · intro _; simp [hlen']
        · rw [deOvJoin_append]
          have : deOvJoin ov [(st.2, false)] = st.2 := by simp [deOvJoin]
          rw [this]
          rw [interleave_snoc done seps p [] hlen']
          rw [← heq]
          simp [List.append_assoc]
      · rw [if_neg h2]
        refine ⟨ann, seps ++ [if st.2.isEmpty then [] else nl2],
          ?_, ?_, ?_, ?_, ?_, ?_, ?_⟩
        · exact hmap
        · exact hchain
        · exact hhead
        · intro s hs
          rcases List.mem_append.mp hs with hs | hs
          · exact hseps s hs
          · rw [List.mem_singleton.mp hs]
            by_cases hb : st.2.isEmpty
            · rw [if_pos hb]; exact Or.inl rfl
            · rw [if_neg hb]; exact Or.inr rfl
        · intro hcontra; simp at hcontra
        · intro _; simp [hlen']
        · rw [interleave_snoc done seps p _ hlen']
          rw [← heq]
          by_cases hb : st.2.isEmpty
          · rw [if_pos hb, List.isEmpty_iff.mp hb]
            simp
          · rw [if_neg hb]
            simp [List.append_assoc]

theorem foldl_chunkStep_inv (maxCS ov : Nat) (hov : ov < maxCS)
    (ps : List (List Char)) :
    ∀ (done : List (List Char)) (st : List (List Char) × List Char),
    ChunkInv ov done st →
    ChunkInv ov (done ++ ps) (ps.foldl (chunkStep maxCS ov) st) := by
  induction ps with
  | nil => intro done st h; simpa using h
  | cons p ps ih =>
    intro done st h
    have h1 := chunkStep_inv maxCS ov hov done st p h
    have h2 := ih (done ++ [p]) (chunkStep maxCS ov st p) h1
    simpa [List.append_assoc] using h2

theorem splitParas_ne_nil (text : List Char) : splitParas text ≠ [] := by
  have h := splitParasAux_len text []
  intro hc
  rw [splitParas] at hc
  rw [hc] at h
  simp at h

theorem final_assembly (ov : Nat) (ps : List (List Char))
    (st : List (List Char) × List Char)
    (hne : ps ≠ []) (h : ChunkInv ov ps st) :
    ∃ (seps1 : List (List Char)) (ann : List (List Char × Bool)),
      ann.map Prod.fst = st.1 ++ (if st.2.isEmpty then [] else [st.2]) ∧
      seps1.length + 1 = ps.length ∧
      (∀ s ∈ seps1, sepOk s) ∧
      List.Chain' (dupRel ov) ann ∧
      (∀ a ∈ ann.head?, a.2 = false) ∧
      deOvJoin ov ann = interleave ps seps1 := by
  obtain ⟨ann, seps, hmap, hchain, hhead, hseps, hnil, hlen, heq⟩ := h
  refine ⟨seps, ann ++ (if st.2.isEmpty then [] else [(st.2, false)]),
    ?_, hlen hne, hseps, ?_, ?_, ?_⟩
  · simp only [List.map_append, hmap]
    by_cases hb : st.2.isEmpty <;> simp [hb]
  · exact chain_append_false_head ov _ _ hchain (buffer_chain ov st.2)
      (buffer_head_flag st.2)
  · exact head_flag_append _ _ hhead (buffer_head_flag st.2)
  · rw [deOvJoin_append, deOvJoin_buffer]
    exact heq

/-- C2: for every text and every valid configuration (overlap < maxChunkSize)
the chunk sequence of splitTextIntoChunks, concatenated after removing the
overlap-sized duplicated prefix of each continuation slice of an oversized
paragraph, spells out the paragraphs of the original text in source order,
joined by whitespace-only separators; the original text is the same
paragraph sequence joined by its original (whitespace-only) paragraph
separators.  Hence concatenation reproduces the text modulo
paragraph-boundary whitespace and chunk order preserves source order. -/
theorem splitTextIntoChunks_reconstructs (text : List Char) (maxCS ov : Nat)
    (hov : ov < maxCS) : ReconstructSpec text maxCS ov := by
  by_cases hshort : text.length ≤ maxCS
  · refine ⟨[text], [], [], [(text, false)], ?_, ?_, ?_, ?_, ?_, ?_, ?_, ?_, ?_⟩
    · rw [splitTextIntoChunks_short text maxCS ov hshort]; rfl
    · exact (interleave_one text).symm
    · rfl
    · simp
    · rfl
    · simp
    · exact List.chain'_singleton _
    · simp
    · simp [deOvJoin, interleave_one]
  · have hbase : ChunkInv ov [] ([], []) := by
      refine ⟨[], [], rfl, by simp, by simp, by simp, by simp, ?_, rfl⟩
      intro hc
      exact absurd rfl hc
    have hinv := foldl_chunkStep_inv maxCS ov hov (splitParas text) [] ([], []) hbase
    rw [List.nil_append] at hinv
    obtain ⟨seps1, ann, hmap, hlen1, hseps1, hchain, hhead, hdeov⟩ :=
      final_assembly ov (splitParas text) _ (splitParas_ne_nil text) hinv
    refine ⟨splitParas text, splitParaSeps text, seps1, ann,
      ?_, ?_, ?_, ?_, hlen1, hseps1, hchain, hhead, hdeov⟩
    · rw [hmap]
      simp only [splitTextIntoChunks, if_neg hshort]
      exact (if_push_append _ _ _).symm
    · have h := splitParasAux_interleave text []
      simp only [List.reverse_nil, List.nil_append] at h
      exact h.symm
    · have h := splitParasAux_len text []
      exact h
    · intro s hs
      exact splitParasAux_seps_ws text [] s hs

/-- Witness for C2 at a concrete text containing both an oversized paragraph
(sliced with overlap) and a small trailing paragraph. -/
theorem splitTextIntoChunks_reconstructs_witness :
    ReconstructSpec ("abcdefgh\n\nxy".toList) 3 1 :=
  splitTextIntoChunks_reconstructs ("abcdefgh\n\nxy".toList) 3 1 (by decide)

/-! ## C1: vector search isolation, ordering and truncation -/

/-- C1: for every store, distance operator, query embedding and limit,
searchDocuments returns only rows whose notebook_id metadata equals the
queried notebookId (it never leaks another notebook's chunks), returns at
most `limit` rows, and returns them ordered by similarity
(1 - cosine distance) descending. -/
theorem searchDocuments_spec (dist : List ℚ → List ℚ → ℚ)
    (store : List StoredDoc) (qEmb : List ℚ) (notebookId : String) (lim : Nat) :
    (∀ r ∈ searchDocuments dist store qEmb notebookId lim,
        r.metadata.notebook_id = notebookId) ∧
    (searchDocuments dist store qEmb notebookId lim).length ≤ lim ∧
    List.Sorted (fun a b : SearchRow => b.similarity ≤ a.similarity)
      (searchDocuments dist store qEmb notebookId lim) := by
  refine ⟨?_, ?_, ?_⟩
  · intro r hr
    rw [searchDocuments] at hr
    obtain ⟨d, hd, rfl⟩ := List.mem_map.mp hr
    have hd2 := List.mem_of_mem_take hd
    have hd3 := (List.perm_insertionSort
      (fun a b : StoredDoc =>
        dist a.embedding qEmb ≤ dist b.embedding qEmb) _).subset hd2
    have hd4 := (List.mem_filter.mp hd3).2
    simpa using hd4
  · rw [searchDocuments]
    simp only [List.length_map, List.length_take]
    omega
  · rw [searchDocuments]
    haveI htot : IsTotal StoredDoc
        (fun a b => dist a.embedding qEmb ≤ dist b.embedding qEmb) :=
      ⟨fun a b => le_total _ _⟩
    haveI htr : IsTrans StoredDoc
        (fun a b => dist a.embedding qEmb ≤ dist b.embedding qEmb) :=
      ⟨fun _ _ _ hab hbc => le_trans hab hbc⟩
    have hs := List.sorted_insertionSort
      (fun a b => dist a.embedding qEmb ≤ dist b.embedding qEmb)
      (store.filter (fun d => d.metadata.notebook_id = notebookId))
    have hs2 := List.Pairwise.sublist (List.take_sublist lim _) hs
    exact List.Pairwise.map
      (fun d : StoredDoc =>
        (⟨d.id, d.content, d.metadata, 1 - dist d.embedding qEmb⟩ : SearchRow))
      (fun a b hab => by simpa using sub_le_sub_left hab 1) hs2

/-! ## C3: ingestion status transitions -/

/-- C3 counterexample: with extraction succeeding on a two-character text
(one chunk) and the chunk insertion throwing, the very same run writes
completed and then failed — the completed state is not terminal, directly
contradicting the claim that a source never transitions from completed to
failed within one run. -/
theorem processDocument_completed_then_failed :
    statusWrites ⟨some ['h', 'i'], fun _ => false⟩
      = [PStatus.completed, PStatus.failed] := by
  decide

/-- C3 amended: failed is terminal within a run (a failed write is always
the last status write), but completed is not: the completed write precedes
the chunk-insert loop, and whenever extraction succeeds and some chunk
insertion throws, the run writes completed and then failed. -/
theorem statusWrites_terminal (env : IngestEnv) :
    (∀ i, (statusWrites env).get? i = some PStatus.failed →
        i + 1 = (statusWrites env).length) ∧
    (∀ t, env.extracted = some t →
        ¬ (List.range (splitTextIntoChunks t 1000 200).length).all env.insertOk
          = true →
        statusWrites env = [PStatus.completed, PStatus.failed]) := by
  have hshape : statusWrites env = [PStatus.failed] ∨
      statusWrites env = [PStatus.completed] ∨
      statusWrites env = [PStatus.completed, PStatus.failed] := by
    rcases hext : env.extracted with _ | t
    · left
      simp [statusWrites, hext]
    · by_cases h : (List.range (splitTextIntoChunks t 1000 200).length).all
          env.insertOk = true
      · right; left
        simp [statusWrites, hext, h]
      · right; right
        simp [statusWrites, hext, h]
  constructor
  · intro i hi
    rcases hshape with h | h | h <;> rw [h] at hi ⊢
    · rcases i with _ | i
      · rfl
      · simp at hi
    · rcases i with _ | i
      · simp at hi
      · simp at hi
    · rcases i with _ | _ | i
      · simp at hi
      · rfl
      · simp at hi
  · intro t ht hfail
    simp [statusWrites, ht, hfail]

/-- Witness for C3 at a concrete environment whose single chunk insertion
fails. -/
theorem statusWrites_terminal_witness :
    statusWrites ⟨some ['h'], fun _ => false⟩
      = [PStatus.completed, PStatus.failed] :=
  (statusWrites_terminal ⟨some ['h'], fun _ => false⟩).2 ['h'] rfl (by decide)

/-! ## C4: chat precondition on completed sources -/

/-- C4: a chat turn with a non-empty message against an owned notebook with
zero completed sources fails with the no-processed-sources error and
inserts no chat_histories rows at all — in particular no AI message is
written. -/
theorem sendMessage_no_sources (env : ChatReqEnv)
    (hmsg : env.message ≠ "") (hown : env.notebookOwned = true)
    (hzero : env.completedSources = 0) :
    (sendMessageHandler env).result = ChatResult.errNoProcessedSources ∧
    (sendMessageHandler env).inserted = [] := by
  rw [sendMessageHandler, if_neg hmsg, hown]
  rw [if_pos rfl, if_pos hzero]
  exact ⟨rfl, rfl⟩

/-- Witness for C4 at a concrete request. -/
theorem sendMessage_no_sources_witness :
    (sendMessageHandler ⟨"hola", true, 0, [], [], ""⟩).result
        = ChatResult.errNoProcessedSources ∧
    (sendMessageHandler ⟨"hola", true, 0, [], [], ""⟩).inserted = [] :=
  sendMessage_no_sources ⟨"hola", true, 0, [], [], ""⟩ (by decide) rfl rfl

/-! ## C7: option precedence in provider dispatch -/

/-- C7 counterexample: a caller-supplied temperature of 0 does not win over
the built-in default: `options.temperature || 0.7` treats 0 as falsy, so
with no stored override the dispatched temperature is 0.7, not the
caller's 0. -/
theorem callerZero_counterexample :
    openAITemperature (some 0) none = 7/10 ∧ (7/10 : ℚ) ≠ 0 := by
  constructor
  · norm_num [openAITemperature, effectiveOption, jsNumOr]
  · norm_num

/-- C7 amended: the effective option value is assembled as built-in default,
then caller override, then provider-stored extra configuration, last wins —
except that a caller-supplied falsy value (0) is discarded in favor of the
built-in default (JavaScript short-circuit or).  A stored value always
wins, even 0.  The OpenAI and Ollama adapters both use this assembly with
defaults temperature 0.7 and max_tokens/num_predict 1000. -/
theorem effectiveOption_precedence (c s : Option ℚ) (v d : ℚ) :
    (∀ w, s = some w → effectiveOption c s d = w) ∧
    (s = none → c = some v → v ≠ 0 → effectiveOption c s d = v) ∧
    (s = none → c = some 0 → effectiveOption c s d = d) ∧
    (s = none → c = none → effectiveOption c s d = d) ∧
    openAITemperature c s = effectiveOption c s (7/10) ∧
    openAIMaxTokens c s = effectiveOption c s 1000 ∧
    ollamaTemperature c s = effectiveOption c s (7/10) ∧
    ollamaNumPredict c s = effectiveOption c s 1000 := by
  refine ⟨?_, ?_, ?_, ?_, rfl, rfl, rfl, rfl⟩
  · intro w hw
    rw [hw]
    rfl
  · intro hs hc hv
    rw [hs, hc]
    simp [effectiveOption, jsNumOr, hv]
  · intro hs hc
    rw [hs, hc]
    simp [effectiveOption, jsNumOr]
  · intro hs hc
    rw [hs, hc]
    rfl

/-- Witness for C7: stored wins over caller; a non-zero caller wins over
the default; a zero caller loses to the default; no caller gives the
default. -/
theorem effectiveOption_precedence_witness :
    effectiveOption (some 2) (some 3) 5 = 3 ∧
    effectiveOption (some 2) none 5 = 2 ∧
    effectiveOption (some 0) none 5 = 5 ∧
    effectiveOption none none 5 = 5 :=
  ⟨(effectiveOption_precedence (some 2) (some 3) 2 5).1 3 rfl,
   (effectiveOption_precedence (some 2) none 2 5).2.1 rfl rfl (by norm_num),
   (effectiveOption_precedence (some 0) none 0 5).2.2.1 rfl rfl,
   (effectiveOption_precedence none none 0 5).2.2.2.1 rfl rfl⟩

/-! ## C9: history rows reach the provider with the non-user role -/

/-- C9: in a successful chat turn the section of the dispatched message
list between the system message and the appended final user turn is exactly
the loaded history rows passed through historyToProvider; such a message
has no role field (rows store only type human/ai), and every provider
adapter therefore normalizes it to its non-user role: assistant for OpenAI,
Anthropic and Ollama, model for Gemini — for AI and human rows alike. -/
theorem history_forwarded_as_assistant (env : ChatReqEnv)
    (hmsg : env.message ≠ "") (hown : env.notebookOwned = true)
    (hsrc : ¬ env.completedSources = 0) :
    ((sendMessageHandler env).sent.drop 1).dropLast
      = (historyWindow (env.db ++ [{ mtype := "human", content := env.message }])).map
          historyToProvider ∧
    ∀ m ∈ ((sendMessageHandler env).sent.drop 1).dropLast,
      m.role = none ∧ openAIRole m = "assistant" ∧ anthropicRole m = "assistant" ∧
      ollamaRole m = "assistant" ∧ geminiRole m = "model" := by
  have hsent : (sendMessageHandler env).sent
      = systemMessage env.relevantDocs ::
        (historyWindow (env.db ++ [{ mtype := "human", content := env.message }])).map
          historyToProvider ++
        [{ role := some "user", content := env.message }] := by
    rw [sendMessageHandler, if_neg hmsg, hown]
    rw [if_pos rfl, if_neg hsrc]
  have hred : ∀ (a : ProviderMsg) (l : List ProviderMsg) (b : ProviderMsg),
      (((a :: l) ++ [b]).drop 1).dropLast = l := by
    intro a l b
    simp
  rw [hsent, hred]
  refine ⟨rfl, ?_⟩
  intro m hm
  obtain ⟨r, _, rfl⟩ := List.mem_map.mp hm
  exact ⟨rfl, rfl, rfl, rfl, rfl⟩

/-- Witness for C9 at a concrete request whose history holds one human and
one AI row. -/
theorem history_forwarded_as_assistant_witness :
    ((sendMessageHandler ⟨"hola", true, 1, [⟨"ai", "x"⟩], [], "r"⟩).sent.drop 1).dropLast
      = (historyWindow ([⟨"ai", "x"⟩] ++ [{ mtype := "human", content := "hola" }])).map
          historyToProvider ∧
    ∀ m ∈ ((sendMessageHandler ⟨"hola", true, 1, [⟨"ai", "x"⟩], [], "r"⟩).sent.drop 1).dropLast,
      m.role = none ∧ openAIRole m = "assistant" ∧ anthropicRole m = "assistant" ∧
      ollamaRole m = "assistant" ∧ geminiRole m = "model" :=
  history_forwarded_as_assistant ⟨"hola", true, 1, [⟨"ai", "x"⟩], [], "r"⟩
    (by decide) rfl (by decide)

/-! ## C10: the user message is dispatched twice -/

/-- C10: in every successful chat turn the dispatched message list ends
with the current user message twice: the user row is inserted before the
recent-history query, which takes the ten highest-id rows and reverses
them, so the loaded history window ends with the freshly inserted user row
(forwarded without a role field), and the handler then appends the explicit
final user turn with the same content. -/
theorem user_message_sent_twice (env : ChatReqEnv)
    (hmsg : env.message ≠ "") (hown : env.notebookOwned = true)
    (hsrc : ¬ env.completedSources = 0) :
    ∃ pre : List ProviderMsg,
      (sendMessageHandler env).sent
        = pre ++ [{ role := none, content := env.message },
                  { role := some "user", content := env.message }] := by
  have hsent : (sendMessageHandler env).sent
      = systemMessage env.relevantDocs ::
        (historyWindow (env.db ++ [{ mtype := "human", content := env.message }])).map
          historyToProvider ++
        [{ role := some "user", content := env.message }] := by
    rw [sendMessageHandler, if_neg hmsg, hown]
    rw [if_pos rfl, if_neg hsrc]
  have hwin : historyWindow (env.db ++ [{ mtype := "human", content := env.message }])
      = (env.db.reverse.take 9).reverse
        ++ [{ mtype := "human", content := env.message }] := by
    rw [historyWindow, List.reverse_append]
    simp only [List.reverse_cons, List.reverse_nil, List.nil_append,
      List.singleton_append]
    have h10 : (10 : Nat) = 9 + 1 := rfl
    rw [h10, List.take_succ_cons, List.reverse_cons]
  refine ⟨systemMessage env.relevantDocs ::
    (env.db.reverse.take 9).reverse.map historyToProvider, ?_⟩
  rw [hsent, hwin]
  simp [historyToProvider, List.append_assoc]

/-- Witness for C10 at a concrete request with one pre-existing row. -/
theorem user_message_sent_twice_witness :
    ∃ pre : List ProviderMsg,
      (sendMessageHandler ⟨"hola", true, 2, [⟨"human", "a"⟩], [], "resp"⟩).sent
        = pre ++ [{ role := none, content := "hola" },
                  { role := some "user", content := "hola" }] :=
  user_message_sent_twice ⟨"hola", true, 2, [⟨"human", "a"⟩], [], "resp"⟩
    (by decide) rfl (by decide)

/-! ## C5: round-robin citation assignment -/

theorem buildSegments_get (docs : List SearchRow) (hne : docs ≠ []) :
    ∀ (ps : List String) (j i : Nat), i < ps.length →
    (buildSegments docs j ps).get? i
      = some { text := ps.getD i "", citation_id := some (j + i + 1) } := by
  intro ps
  induction ps with
  | nil =>
    intro j i hi
    simp at hi
  | cons p ps ih =>
    intro j i hi
    obtain ⟨d0, hd0⟩ : ∃ d0, docs.get? (j % docs.length) = some d0 :=
      ⟨_, List.get?_eq_get (Nat.mod_lt _ (List.length_pos.mpr hne))⟩
    cases i with
    | zero =>
      rw [List.get?_eq_getElem?] at hd0
      simp [buildSegments, hd0]
    | succ i =>
      have hi' : i < ps.length := by simpa using hi
      have hrec := ih (j + 1) i hi'
      have harith : j + 1 + i + 1 = j + (i + 1) + 1 := by omega
      rw [harith] at hrec
      simp only [buildSegments, List.getD_cons_succ]
      rw [List.get?_cons_succ]
      exact hrec

theorem buildCitations_get (docs : List SearchRow) (hne : docs ≠ []) :
    ∀ (ps : List String) (j i : Nat), i < ps.length →
    ∀ d, docs.get? ((j + i) % docs.length) = some d →
    (buildCitations docs j ps).get? i
      = some (mkCitation (j + i + 1) (ps.getD i "") d) := by
  intro ps
  induction ps with
  | nil =>
    intro j i hi
    simp at hi
  | cons p ps ih =>
    intro j i hi d hd
    cases i with
    | zero =>
      rw [Nat.add_zero, List.get?_eq_getElem?] at hd
      simp [buildCitations, hd]
    | succ i =>
      have hi' : i < ps.length := by simpa using hi
      have hd' : docs.get? ((j + 1 + i) % docs.length) = some d := by
        have ha : j + 1 + i = j + (i + 1) := by omega
        rw [ha]
        exact hd
      have hrec := ih (j + 1) i hi' d hd'
      have harith : j + 1 + i + 1 = j + (i + 1) + 1 := by omega
      rw [harith] at hrec
      obtain ⟨d0, hd0⟩ : ∃ d0, docs.get? (j % docs.length) = some d0 :=
        ⟨_, List.get?_eq_get (Nat.mod_lt _ (List.length_pos.mpr hne))⟩
      simp only [buildCitations, hd0, List.singleton_append, List.getD_cons_succ]
      rw [List.get?_cons_succ]
      exact hrec

/-- C5: with at least one retrieved chunk, the i-th non-empty paragraph
segment of the answer text is assigned citation number i+1 and paired
round-robin with chunk i mod k; the pushed citation carries the chunk's
source id verbatim, its stored title and kind whenever present (fixed
fallback strings otherwise), and an excerpt equal to the first at most 200
characters of the chunk followed by an ellipsis marker. -/
theorem citations_round_robin (text : String) (docs : List SearchRow)
    (hne : docs ≠ []) (i : Nat) (hi : i < (answerParagraphs text).length) :
    ∃ d : SearchRow,
      docs.get? (i % docs.length) = some d ∧
      (processResponseWithCitations text docs).segments.get? i
        = some { text := (answerParagraphs text).getD i "",
                 citation_id := some (i + 1) } ∧
      (processResponseWithCitations text docs).citations.get? i
        = some (mkCitation (i + 1) ((answerParagraphs text).getD i "") d) ∧
      (mkCitation (i + 1) ((answerParagraphs text).getD i "") d).source_id
        = d.metadata.source_id ∧
      (∀ t, d.metadata.source_title = some t →
        (mkCitation (i + 1) ((answerParagraphs text).getD i "") d).source_title
          = t) ∧
      (∀ ty, d.metadata.source_type = some ty →
        (mkCitation (i + 1) ((answerParagraphs text).getD i "") d).source_type
          = ty) ∧
      (mkCitation (i + 1) ((answerParagraphs text).getD i "") d).excerpt
        = d.content.take 200 ++ "..." ∧
      (d.content.take 200).length ≤ 200 := by
  obtain ⟨d, hd⟩ : ∃ d, docs.get? (i % docs.length) = some d :=
    ⟨_, List.get?_eq_get (Nat.mod_lt _ (List.length_pos.mpr hne))⟩
  refine ⟨d, hd, ?_, ?_, rfl, ?_, ?_, rfl, ?_⟩
  · have h := buildSegments_get docs hne (answerParagraphs text) 0 i hi
    simpa [processResponseWithCitations] using h
  · have h := buildCitations_get docs hne (answerParagraphs text) 0 i hi d
      (by simpa using hd)
    simpa [processResponseWithCitations] using h
  · intro t ht
    simp [mkCitation, ht]
  · intro ty hty
    simp [mkCitation, hty]
  · rw [String.take_eq]
    have h : (String.mk (d.content.1.take 200)).length
        = (d.content.1.take 200).length := rfl
    rw [h, List.length_take]
    omega

/-- Witness for C5: a two-chunk retrieval and a three-paragraph answer,
checked at the third paragraph (round-robin wraps to chunk 0). -/
theorem citations_round_robin_witness :
    ∃ d : SearchRow,
      [⟨7, "uno", ⟨"nb", "s1", some "t1", some "text", 0, "n"⟩, 1⟩,
       ⟨8, "dos", ⟨"nb", "s2", some "t2", some "pdf", 1, "n"⟩, 1⟩].get?
          (2 % ([⟨7, "uno", ⟨"nb", "s1", some "t1", some "text", 0, "n"⟩, 1⟩,
            ⟨8, "dos", ⟨"nb", "s2", some "t2", some "pdf", 1, "n"⟩, 1⟩] :
              List SearchRow).length) = some d ∧
      (processResponseWithCitations "a\n\nb\n\nc"
          [⟨7, "uno", ⟨"nb", "s1", some "t1", some "text", 0, "n"⟩, 1⟩,
           ⟨8, "dos", ⟨"nb", "s2", some "t2", some "pdf", 1, "n"⟩, 1⟩]).segments.get? 2
        = some { text := (answerParagraphs "a\n\nb\n\nc").getD 2 "",
                 citation_id := some (2 + 1) } ∧
      (processResponseWithCitations "a\n\nb\n\nc"
          [⟨7, "uno", ⟨"nb", "s1", some "t1", some "text", 0, "n"⟩, 1⟩,
           ⟨8, "dos", ⟨"nb", "s2", some "t2", some "pdf", 1, "n"⟩, 1⟩]).citations.get? 2
        = some (mkCitation (2 + 1) ((answerParagraphs "a\n\nb\n\nc").getD 2 "") d) ∧
      (mkCitation (2 + 1) ((answerParagraphs "a\n\nb\n\nc").getD 2 "") d).source_id
        = d.metadata.source_id ∧
      (∀ t, d.metadata.source_title = some t →
        (mkCitation (2 + 1) ((answerParagraphs "a\n\nb\n\nc").getD 2 "") d).source_title
          = t) ∧
      (∀ ty, d.metadata.source_type = some ty →
        (mkCitation (2 + 1) ((answerParagraphs "a\n\nb\n\nc").getD 2 "") d).source_type
          = ty) ∧
      (mkCitation (2 + 1) ((answerParagraphs "a\n\nb\n\nc").getD 2 "") d).excerpt
        = d.content.take 200 ++ "..." ∧
      (d.content.take 200).length ≤ 200 :=
  citations_round_robin "a\n\nb\n\nc"
    [⟨7, "uno", ⟨"nb", "s1", some "t1", some "text", 0, "n"⟩, 1⟩,
     ⟨8, "dos", ⟨"nb", "s2", some "t2", some "pdf", 1, "n"⟩, 1⟩]
    (List.cons_ne_nil _ _) 2 (by decide)

end NotebookV2
